import Mathlib

/-!
Verification of the OpenSearch user-database adapter
(`fastapi_users_db_opensearch/__init__.py`).

The adapter stores user records in a "user" index and linked OAuth accounts
in an "oauth_account" index of an external document store.  We embed the
store as two association lists keyed by document `_id`, and each adapter
method as a pure function on that state.  Python's `str.lower` is embedded
as `strLower` (pointwise `Char.toLower`, provably equal to
`String.toLower`); a raised exception becomes `Except.error`.
-/

deriving instance DecidableEq for Except

/-- A linked OAuth account entry as carried on the in-memory user record
(fastapi-users `BaseOAuthAccount`): its own `id`, the provider name, the
external account id, and a representative provider-specific token field. -/
structure OAuthAccount where
  id : String
  oauth_name : String
  account_id : String
  access_token : String
deriving Repr, DecidableEq

/-- The in-memory user record (the pydantic `UD` model).
`oauth_accounts = none` models a model whose `dict()` has no
`"oauth_accounts"` key at all; `some l` models the key being present with
list `l`.  `hashed_password` stands for the framework's other scalar
fields, which the adapter merely passes through. -/
structure UserRecord where
  id : String
  email : String
  hashed_password : String
  oauth_accounts : Option (List OAuthAccount)
deriving Repr, DecidableEq

/-- The `_source` of a stored user document: `create`/`update` pop the `id`
out of `user.dict()` and use it as the document key, so it is not a field. -/
structure UserDoc where
  email : String
  hashed_password : String
deriving Repr, DecidableEq

/-- The `_source` of a stored oauth_account document: the entry's own `id`
becomes the document key, a `user_id` back-reference is added, and the
remaining entry fields are kept. -/
structure OAuthDoc where
  user_id : String
  oauth_name : String
  account_id : String
  access_token : String
deriving Repr, DecidableEq

/-- The external store: the two indices used by the adapter, as association
lists keyed by document `_id` (one document per key). -/
structure Store where
  user_index : List (String × UserDoc)
  oauth_account_index : List (String × OAuthDoc)
deriving Repr, DecidableEq

/-- Python's `str.lower()`, embedded as character-wise lowercasing.  This is
extensionally equal to `String.toLower` (see `strLower_eq_toLower`) but
defined by structural recursion on the character list, so that concrete
instances reduce. -/
def strLower (s : String) : String := ⟨s.data.map Char.toLower⟩

/-- `client.get(index, id)`: the document with key `id`, if any. -/
def lookupDoc {α : Type} (idx : List (String × α)) (id : String) : Option α :=
  (idx.find? (fun p => p.1 == id)).map (fun p => p.2)

/-- `client.index(index, id, body)` and the bulk "index" op: upsert, keeping
the position of an overwritten document and appending a fresh one. -/
def indexDoc {α : Type} (idx : List (String × α)) (id : String) (v : α) :
    List (String × α) :=
  if idx.any (fun p => p.1 == id) then
    idx.map (fun p => if p.1 == id then (id, v) else p)
  else
    idx ++ [(id, v)]

namespace OpenSearchUserDatabase

/-- The hits of the `match` query on `user_id.keyword` issued by
`_make_user`, with their `_id`s. -/
def oauthHitsByUser (s : Store) (uid : String) : List (String × OAuthDoc) :=
  s.oauth_account_index.filter (fun p => p.2.user_id == uid)

/-- `_make_user`: assembles the typed record from a raw user document (with
its id merged back in), attaching the `oauth_accounts` field only when the
back-reference query has at least one hit. -/
def make_user (s : Store) (id : String) (doc : UserDoc) : UserRecord :=
  let oauth_accounts := oauthHitsByUser s id
  { id := id
    email := doc.email
    hashed_password := doc.hashed_password
    oauth_accounts :=
      if oauth_accounts.isEmpty then none
      else some (oauth_accounts.map (fun p =>
        { id := p.1
          oauth_name := p.2.oauth_name
          account_id := p.2.account_id
          access_token := p.2.access_token })) }

/-- `get(id)`: direct id lookup; `NotFoundError` is caught and becomes
`none`; otherwise the record is assembled by `make_user`. -/
def get (s : Store) (id : String) : Option UserRecord :=
  match lookupDoc s.user_index id with
  | none => none
  | some doc => some (make_user s id doc)

/-- The hits of the `match` query on `email.keyword` issued by
`get_by_email`: the query email is lowercased, the stored email is compared
verbatim. -/
def userHitsByEmail (s : Store) (email : String) : List (String × UserDoc) :=
  s.user_index.filter (fun p => p.2.email == strLower email)

/-- `get_by_email(email)`: lowercases the query, takes hit zero. -/
def get_by_email (s : Store) (email : String) : Option UserRecord :=
  match userHitsByEmail s email with
  | [] => none
  | h :: _ => some (make_user s h.1 h.2)

/-- The hits of the bool/must query on `oauth_name.keyword` and
`account_id.keyword` issued by `get_by_oauth_account`. -/
def oauthHitsByAccount (s : Store) (oauth : String) (account_id : String) :
    List (String × OAuthDoc) :=
  s.oauth_account_index.filter
    (fun p => p.2.oauth_name == oauth && p.2.account_id == account_id)

/-- `get_by_oauth_account(oauth, account_id)`: on a hit, extracts
`user_id` from hit zero and delegates to `get`. -/
def get_by_oauth_account (s : Store) (oauth : String) (account_id : String) :
    Option UserRecord :=
  match oauthHitsByAccount s oauth account_id with
  | [] => none
  | h :: _ => get s h.2.user_id

/-- One bulk action built from an oauth entry in `create`/`update`: the
entry's `id` is popped and becomes `_id`, `user_id` is the owning user's id,
the remaining fields are spread in. -/
def oauthDocOf (uid : String) (a : OAuthAccount) : String × OAuthDoc :=
  (a.id,
   { user_id := uid
     oauth_name := a.oauth_name
     account_id := a.account_id
     access_token := a.access_token })

/-- `async_bulk` with "index" actions: upsert each document in order. -/
def bulkIndex (idx : List (String × OAuthDoc)) (docs : List (String × OAuthDoc)) :
    List (String × OAuthDoc) :=
  docs.foldl (fun i d => indexDoc i d.1 d.2) idx

/-- `create(user)`: builds the bulk actions when `"oauth_accounts"` is a key
of `user.dict()`, then checks `get_by_email(user.email.lower())` and raises
on a hit (before any write), then indexes the user document with the email
lowercased, then bulk-writes the oauth documents.  Returns the input record
unchanged on success, together with the resulting store. -/
def create (s : Store) (user : UserRecord) : Except Unit UserRecord × Store :=
  let oauth_accounts_values :=
    (user.oauth_accounts).map (fun l => l.map (oauthDocOf user.id))
  if (get_by_email s (strLower user.email)).isSome then
    (Except.error (), s)
  else
    let userDoc : UserDoc :=
      { email := strLower user.email, hashed_password := user.hashed_password }
    let s1 : Store := { s with user_index := indexDoc s.user_index user.id userDoc }
    match oauth_accounts_values with
    | none => (Except.ok user, s1)
    | some docs =>
        (Except.ok user,
         { s1 with oauth_account_index := bulkIndex s1.oauth_account_index docs })

/-- `update(user)`: when `"oauth_accounts"` is a key of `user.dict()`,
first `delete_by_query` on `user_id.keyword`, then bulk-writes the new
documents; then `client.update` merges the user document's fields in place
(the email verbatim, not lowercased), raising `NotFoundError` when no user
document with that id exists.  Returns the input record unchanged on
success, together with the resulting store. -/
def update (s : Store) (user : UserRecord) : Except Unit UserRecord × Store :=
  let s1 : Store :=
    match user.oauth_accounts with
    | none => s
    | some accts =>
        let afterDelete :=
          s.oauth_account_index.filter (fun p => !(p.2.user_id == user.id))
        { s with oauth_account_index :=
            bulkIndex afterDelete (accts.map (oauthDocOf user.id)) }
  match lookupDoc s1.user_index user.id with
  | none => (Except.error (), s1)
  | some _ =>
      let newDoc : UserDoc :=
        { email := user.email, hashed_password := user.hashed_password }
      (Except.ok user, { s1 with user_index := indexDoc s1.user_index user.id newDoc })

/-- `delete(user)`: deletes the user document by id (`client.delete` raises
`NotFoundError` when absent); the oauth_account index is not touched. -/
def delete (s : Store) (user : UserRecord) : Except Unit Unit × Store :=
  if s.user_index.any (fun p => p.1 == user.id) then
    (Except.ok (),
     { s with user_index := s.user_index.filter (fun p => !(p.1 == user.id)) })
  else
    (Except.error (), s)

end OpenSearchUserDatabase

/-! ## Helper lemmas about the store primitives -/

theorem lookupDoc_eq_none {α : Type} (idx : List (String × α)) (id : String)
    (h : ∀ p ∈ idx, p.1 ≠ id) : lookupDoc idx id = none := by
  unfold lookupDoc
  rw [List.find?_eq_none.mpr]
  · rfl
  · intro p hp
    simpa using h p hp

theorem lookupDoc_append {α : Type} (l1 l2 : List (String × α)) (id : String)
    (h : ∀ p ∈ l1, p.1 ≠ id) :
    lookupDoc (l1 ++ l2) id = lookupDoc l2 id := by
  unfold lookupDoc
  rw [List.find?_append, List.find?_eq_none.mpr, Option.none_or]
  intro p hp
  simpa using h p hp

theorem find?_overwrite {α : Type} (idx : List (String × α)) (id : String) (v : α)
    (h : idx.any (fun p => p.1 == id)) :
    (idx.map (fun p => if p.1 == id then (id, v) else p)).find?
      (fun p => p.1 == id) = some (id, v) := by
  induction idx with
  | nil => simp at h
  | cons q t ih =>
    by_cases hq : q.1 == id
    · simp only [List.map_cons]
      rw [if_pos hq]
      exact List.find?_cons_of_pos _ (by simp)
    · have ht : t.any (fun p => p.1 == id) := by
        simp only [List.any_cons, hq, Bool.false_or] at h
        exact h
      simp only [List.map_cons, hq, if_false, Bool.false_eq_true]
      rw [List.find?_cons_of_neg _ (by simpa using hq)]
      exact ih ht

theorem lookupDoc_indexDoc_self {α : Type} (idx : List (String × α)) (id : String)
    (v : α) : lookupDoc (indexDoc idx id v) id = some v := by
  unfold indexDoc
  by_cases h : idx.any (fun p => p.1 == id)
  · rw [if_pos h]
    unfold lookupDoc
    rw [find?_overwrite idx id v h]
    rfl
  · rw [if_neg h]
    rw [lookupDoc_append idx [(id, v)] id]
    · simp [lookupDoc]
    · intro p hp hpid
      exact h (List.any_eq_true.mpr ⟨p, hp, by simp [hpid]⟩)

theorem indexDoc_fresh {α : Type} (idx : List (String × α)) (id : String) (v : α)
    (h : ∀ p ∈ idx, p.1 ≠ id) : indexDoc idx id v = idx ++ [(id, v)] := by
  unfold indexDoc
  rw [if_neg]
  simp only [List.any_eq_true, not_exists, not_and]
  intro p hp hb
  exact h p hp (by simpa using hb)

theorem bulkIndex_fresh (idx docs : List (String × OAuthDoc))
    (hfresh : ∀ p ∈ idx, ∀ d ∈ docs, p.1 ≠ d.1)
    (hnodup : (docs.map Prod.fst).Nodup) :
    OpenSearchUserDatabase.bulkIndex idx docs = idx ++ docs := by
  induction docs generalizing idx with
  | nil => simp [OpenSearchUserDatabase.bulkIndex]
  | cons d t ih =>
    unfold OpenSearchUserDatabase.bulkIndex at ih ⊢
    simp only [List.foldl_cons]
    rw [indexDoc_fresh idx d.1 d.2 (fun p hp => hfresh p hp d (by simp))]
    rw [ih (idx ++ [d])]
    · simp
    · intro p hp e he
      rcases List.mem_append.mp hp with hmem | hmem
      · exact hfresh p hmem e (List.mem_cons_of_mem d he)
      · have hpd : p = d := by simpa using hmem
        subst hpd
        simp only [List.map_cons, List.nodup_cons] at hnodup
        intro hc
        exact hnodup.1 (hc ▸ List.mem_map_of_mem Prod.fst he)
    · simp only [List.map_cons, List.nodup_cons] at hnodup
      exact hnodup.2

/-- `Char.toLower` is idempotent. -/
theorem Char.toLower_toLower (c : Char) : c.toLower.toLower = c.toLower := by
  by_cases h : 65 ≤ c.toNat ∧ c.toNat ≤ 90
  · rw [show c.toLower = Char.ofNat (c.toNat + 32) by
      simp [Char.toLower, h, ge_iff_le]]
    obtain ⟨h65, h90⟩ := h
    set n := c.toNat with hn
    interval_cases n <;> decide
  · have hfix : c.toLower = c := by
      simp only [Char.toLower]
      rw [if_neg]
      intro hc
      exact h ⟨hc.1, hc.2⟩
    rw [hfix, hfix]

/-- `String.toLower` is idempotent, because `Char.toLower` is. -/
theorem String.toLower_idem (s : String) : s.toLower.toLower = s.toLower := by
  have hf : Char.toLower ∘ Char.toLower = Char.toLower :=
    funext Char.toLower_toLower
  simp only [String.toLower, String.map_eq, List.map_map, hf]

/-- The embedded lowercasing agrees with the library's `String.toLower`. -/
theorem strLower_eq_toLower (s : String) : strLower s = s.toLower :=
  (String.map_eq Char.toLower s).symm

/-- `strLower` is idempotent, because `Char.toLower` is. -/
theorem strLower_idem (s : String) : strLower (strLower s) = strLower s := by
  have hf : Char.toLower ∘ Char.toLower = Char.toLower :=
    funext Char.toLower_toLower
  simp only [strLower, List.map_map, hf]

open OpenSearchUserDatabase

/-- Decomposition of a successful `create`: the duplicate-email check came
back empty, the user document was indexed with the lowercased email, and the
oauth documents were bulk-indexed exactly when the field was present. -/
theorem create_success (s : Store) (user : UserRecord) (s2 : Store)
    (h : create s user = (Except.ok user, s2)) :
    get_by_email s (strLower user.email) = none ∧
    s2.user_index = indexDoc s.user_index user.id
      { email := strLower user.email, hashed_password := user.hashed_password } ∧
    s2.oauth_account_index = (match user.oauth_accounts with
      | none => s.oauth_account_index
      | some accts =>
          bulkIndex s.oauth_account_index (accts.map (oauthDocOf user.id))) := by
  by_cases hc : (get_by_email s (strLower user.email)).isSome
  · exfalso
    have h1 : (create s user).1 = Except.error () := by
      unfold create
      rw [if_pos hc]
    rw [h] at h1
    simp at h1
  · have hnone : get_by_email s (strLower user.email) = none :=
      Option.not_isSome_iff_eq_none.mp hc
    have h2 := congrArg Prod.snd h
    refine ⟨hnone, ?_, ?_⟩ <;>
      rcases hoa : user.oauth_accounts with _ | accts <;>
      simp only [create, hnone, Option.isSome_none, Bool.false_eq_true, if_false,
        hoa, Option.map_none', Option.map_some'] at h2 <;>
      rw [← h2]

/-- Decomposition of a successful `update`: a user document with that id
existed; it was overwritten with the record's fields (email verbatim); and
when the `oauth_accounts` field was present, the existing back-referenced
documents were deleted and the new set bulk-indexed. -/
theorem update_success (s : Store) (user : UserRecord) (s2 : Store)
    (h : update s user = (Except.ok user, s2)) :
    (∃ doc, lookupDoc s.user_index user.id = some doc) ∧
    s2.user_index = indexDoc s.user_index user.id
      { email := user.email, hashed_password := user.hashed_password } ∧
    s2.oauth_account_index = (match user.oauth_accounts with
      | none => s.oauth_account_index
      | some accts =>
          bulkIndex (s.oauth_account_index.filter (fun p => !(p.2.user_id == user.id)))
            (accts.map (oauthDocOf user.id))) := by
  rcases hl : lookupDoc s.user_index user.id with _ | doc
  · exfalso
    rcases hoa : user.oauth_accounts with _ | accts <;>
      simp only [update, hoa, hl] at h <;>
      exact absurd (congrArg Prod.fst h) (by simp)
  · refine ⟨⟨doc, rfl⟩, ?_, ?_⟩ <;>
      have h2 := congrArg Prod.snd h <;>
      rcases hoa : user.oauth_accounts with _ | accts <;>
      simp only [update, hoa, hl] at h2 <;>
      rw [← h2]

/-! ## Concrete fixtures shared by the witness theorems -/

/-- A first linked-account entry. -/
def acct1 : OAuthAccount :=
  { id := "o1", oauth_name := "google", account_id := "g1", access_token := "t1" }

/-- A second linked-account entry. -/
def acct2 : OAuthAccount :=
  { id := "o2", oauth_name := "github", account_id := "h1", access_token := "t2" }

/-- The stored user document for `user1`. -/
def udoc1 : UserDoc := { email := "a@b.com", hashed_password := "pw" }

/-- A user record with a mixed-case email and no `oauth_accounts` key. -/
def user1 : UserRecord :=
  { id := "u1", email := "A@B.com", hashed_password := "pw", oauth_accounts := none }

/-- The same user carrying two linked-login entries. -/
def user1o : UserRecord :=
  { id := "u1", email := "A@B.com", hashed_password := "pw",
    oauth_accounts := some [acct1, acct2] }

/-- The empty store. -/
def store0 : Store := { user_index := [], oauth_account_index := [] }

/-- A store holding only `user1`'s document. -/
def store1 : Store := { user_index := [("u1", udoc1)], oauth_account_index := [] }

/-- A linked-login document owned by a different user, "u2". -/
def odoc9 : OAuthDoc :=
  { user_id := "u2", oauth_name := "google", account_id := "g9", access_token := "t9" }

/-- A store holding `user1`'s document and an unrelated linked-login document. -/
def store2 : Store :=
  { user_index := [("u1", udoc1)], oauth_account_index := [("o9", odoc9)] }

/-- C6: for every id with no stored user document, `get` returns an empty
result (`none`) rather than raising: the underlying store's not-found error
on the direct id lookup is caught and recovered locally, never surfaced to
the caller as an error. -/
theorem C6_get_missing_id_is_none (s : Store) (id : String)
    (h : ∀ p ∈ s.user_index, p.1 ≠ id) :
    OpenSearchUserDatabase.get s id = none := by
  unfold OpenSearchUserDatabase.get
  rw [lookupDoc_eq_none s.user_index id h]

/-- Witness for C6: a store holding an unrelated user, queried at "u9". -/
theorem C6_witness :
    (∀ p ∈ store1.user_index, p.1 ≠ "u9") ∧
    OpenSearchUserDatabase.get store1 "u9" = none :=
  ⟨by decide, C6_get_missing_id_is_none store1 "u9" (by decide)⟩

/-- C7: for a user whose id no stored linked-login document back-references,
`get` returns a record whose `oauth_accounts` field is absent (`none`), not
an empty list. -/
theorem C7_absent_oauth_field (s : Store) (uid : String) (doc : UserDoc)
    (h1 : lookupDoc s.user_index uid = some doc)
    (h2 : ∀ p ∈ s.oauth_account_index, p.2.user_id ≠ uid) :
    ∃ r, OpenSearchUserDatabase.get s uid = some r ∧ r.oauth_accounts = none := by
  have hhits : oauthHitsByUser s uid = [] := by
    unfold oauthHitsByUser
    rw [List.filter_eq_nil_iff.mpr]
    intro p hp
    simpa using h2 p hp
  refine ⟨make_user s uid doc, ?_, ?_⟩
  · unfold OpenSearchUserDatabase.get
    rw [h1]
  · simp only [make_user, hhits, List.isEmpty_nil, if_pos]

/-- Witness for C7: one stored user, one linked-login document owned by a
different user. -/
theorem C7_witness :
    lookupDoc store2.user_index "u1" = some udoc1 ∧
    (∀ p ∈ store2.oauth_account_index, p.2.user_id ≠ "u1") ∧
    (∃ r, OpenSearchUserDatabase.get store2 "u1" = some r ∧ r.oauth_accounts = none) :=
  ⟨by decide, by decide, C7_absent_oauth_field store2 "u1" udoc1 (by decide) (by decide)⟩

/-- C8: a successful `create` or a successful `update` returns the input
record itself — the caller-supplied state with its original email casing,
not the persisted lowercased state. -/
theorem C8_returns_input (s : Store) (user r : UserRecord) (s2 : Store)
    (h : create s user = (Except.ok r, s2) ∨ update s user = (Except.ok r, s2)) :
    r = user := by
  rcases h with h | h
  · by_cases hc : (get_by_email s (strLower user.email)).isSome
    · exfalso
      have h1 : (create s user).1 = Except.error () := by
        unfold create
        rw [if_pos hc]
      rw [h] at h1
      simp at h1
    · have h1 := congrArg Prod.fst h
      rcases hoa : user.oauth_accounts with _ | accts <;>
        simp only [create, Option.not_isSome_iff_eq_none.mp hc, Option.isSome_none,
          Bool.false_eq_true, if_false, hoa, Option.map_none', Option.map_some'] at h1 <;>
        exact (Except.ok.inj h1).symm
  · rcases hl : lookupDoc s.user_index user.id with _ | doc
    · exfalso
      rcases hoa : user.oauth_accounts with _ | accts <;>
        simp only [update, hoa, hl] at h <;>
        exact absurd (congrArg Prod.fst h) (by simp)
    · have h1 := congrArg Prod.fst h
      rcases hoa : user.oauth_accounts with _ | accts <;>
        simp only [update, hoa, hl] at h1 <;>
        exact (Except.ok.inj h1).symm

/-- Witness for C8: a concrete successful `create` echoing its mixed-case
input record. -/
theorem C8_witness :
    (create store0 user1 = (Except.ok user1, store1) ∨
     update store0 user1 = (Except.ok user1, store1)) ∧
    user1 = user1 :=
  ⟨Or.inl (by decide),
   C8_returns_input store0 user1 user1 store1 (Or.inl (by decide))⟩

/-- Another user record whose email is case-insensitively equal to
`user1`'s, used to exercise the duplicate-email check. -/
def user3 : UserRecord :=
  { id := "u3", email := "a@B.COM", hashed_password := "pw2", oauth_accounts := none }

/-- C2: when a user document whose stored (lowercased) email equals the new
record's lowercased email already exists, `create` raises, and — the
duplicate check running before any write — the store is returned unchanged:
neither the user document nor any linked-login document is written. -/
theorem C2_duplicate_email_create_fails (s : Store) (user : UserRecord)
    (hdup : ∃ p ∈ s.user_index, p.2.email = strLower user.email) :
    create s user = (Except.error (), s) := by
  have hsome : (get_by_email s (strLower user.email)).isSome := by
    rcases hdup with ⟨p, hp, he⟩
    have hmem : p ∈ userHitsByEmail s (strLower user.email) := by
      unfold userHitsByEmail
      rw [strLower_idem]
      exact List.mem_filter.mpr ⟨hp, by simpa using he⟩
    rcases hl : userHitsByEmail s (strLower user.email) with _ | ⟨h0, t⟩
    · rw [hl] at hmem
      simp at hmem
    · unfold get_by_email
      rw [hl]
      rfl
  unfold create
  rw [if_pos hsome]

/-- Witness for C2: creating `user3` ("a@B.COM") against a store already
holding a user document with email "a@b.com" fails and changes nothing. -/
theorem C2_witness :
    (∃ p ∈ store1.user_index, p.2.email = strLower user3.email) ∧
    create store1 user3 = (Except.error (), store1) :=
  ⟨by decide, C2_duplicate_email_create_fails store1 user3 (by decide)⟩

/-- Mapping preserves emptiness. -/
theorem isEmpty_map {α β : Type} (f : α → β) (l : List α) :
    (l.map f).isEmpty = l.isEmpty := by
  cases l <;> rfl

/-- Reading back the bulk-indexed documents of `accts` reproduces `accts`:
the document key carries the entry id and the `_source` the other fields. -/
theorem map_oauthDocOf_roundtrip (uid : String) (accts : List OAuthAccount) :
    (accts.map (oauthDocOf uid)).map (fun p =>
        ({ id := p.1
           oauth_name := p.2.oauth_name
           account_id := p.2.account_id
           access_token := p.2.access_token } : OAuthAccount)) = accts := by
  rw [List.map_map]
  exact List.map_id'' (fun a => rfl) accts

/-- Every document built by `oauthDocOf uid` back-references `uid`, so the
`user_id.keyword` filter keeps all of them. -/
theorem filter_oauthDocOf_self (uid : String) (accts : List OAuthAccount) :
    (accts.map (oauthDocOf uid)).filter (fun p => p.2.user_id == uid)
      = accts.map (oauthDocOf uid) := by
  refine List.filter_eq_self.mpr (fun d hd => ?_)
  rcases List.mem_map.mp hd with ⟨a, ha, rfl⟩
  simp [oauthDocOf]

/-- The document keys of the bulk actions are the entry ids. -/
theorem map_fst_oauthDocOf (uid : String) (accts : List OAuthAccount) :
    (accts.map (oauthDocOf uid)).map Prod.fst = accts.map (fun a => a.id) := by
  rw [List.map_map]
  rfl

/-- C1: round-trip through `create` and `get`.  For a record carrying a
linked-login list `accts` (with pairwise-distinct, fresh entry ids and no
pre-existing documents back-referencing the user), a successful `create`
followed by `get` on the user's id returns exactly the persisted fields —
the email lowercased, the other fields verbatim — and exactly the created
linked-login entries (absent when `accts` is empty). -/
theorem C1_create_get_roundtrip (s : Store) (user : UserRecord)
    (accts : List OAuthAccount) (s2 : Store)
    (hoa : user.oauth_accounts = some accts)
    (hnodup : (accts.map (fun a => a.id)).Nodup)
    (hnoprior : ∀ p ∈ s.oauth_account_index, p.2.user_id ≠ user.id)
    (hfresh : ∀ p ∈ s.oauth_account_index, ∀ a ∈ accts, p.1 ≠ a.id)
    (hcr : create s user = (Except.ok user, s2)) :
    OpenSearchUserDatabase.get s2 user.id =
      some { id := user.id
             email := strLower user.email
             hashed_password := user.hashed_password
             oauth_accounts := if accts.isEmpty then none else some accts } := by
  obtain ⟨hchk, hui, hoi⟩ := create_success s user s2 hcr
  simp only [hoa] at hoi
  have hdocs : s2.oauth_account_index
      = s.oauth_account_index ++ accts.map (oauthDocOf user.id) := by
    rw [hoi]
    refine bulkIndex_fresh _ _ (fun p hp d hd => ?_) ?_
    · rcases List.mem_map.mp hd with ⟨a, ha, rfl⟩
      exact hfresh p hp a ha
    · rw [map_fst_oauthDocOf]
      exact hnodup
  have hlookup : lookupDoc s2.user_index user.id
      = some { email := strLower user.email, hashed_password := user.hashed_password } := by
    rw [hui]
    exact lookupDoc_indexDoc_self _ _ _
  have hhits : oauthHitsByUser s2 user.id = accts.map (oauthDocOf user.id) := by
    unfold oauthHitsByUser
    rw [hdocs, List.filter_append, List.filter_eq_nil_iff.mpr, List.nil_append,
      filter_oauthDocOf_self]
    intro p hp
    simpa using hnoprior p hp
  unfold OpenSearchUserDatabase.get
  rw [hlookup]
  simp only [make_user, hhits]
  rw [isEmpty_map, map_oauthDocOf_roundtrip]

/-- The store after creating `user1o` in the empty store. -/
def store1o : Store :=
  { user_index := [("u1", udoc1)],
    oauth_account_index :=
      [("o1", { user_id := "u1", oauth_name := "google", account_id := "g1", access_token := "t1" }),
       ("o2", { user_id := "u1", oauth_name := "github", account_id := "h1", access_token := "t2" })] }

/-- Witness for C1: creating `user1o` (two linked-login entries) in the
empty store and reading it back by id. -/
theorem C1_witness :
    user1o.oauth_accounts = some [acct1, acct2] ∧
    (([acct1, acct2] : List OAuthAccount).map (fun a => a.id)).Nodup ∧
    (∀ p ∈ store0.oauth_account_index, p.2.user_id ≠ user1o.id) ∧
    (∀ p ∈ store0.oauth_account_index, ∀ a ∈ [acct1, acct2], p.1 ≠ a.id) ∧
    create store0 user1o = (Except.ok user1o, store1o) ∧
    OpenSearchUserDatabase.get store1o user1o.id =
      some { id := user1o.id
             email := strLower user1o.email
             hashed_password := user1o.hashed_password
             oauth_accounts := if ([acct1, acct2] : List OAuthAccount).isEmpty then none
                               else some [acct1, acct2] } :=
  ⟨by decide, by decide, by decide, by decide, by decide,
   C1_create_get_roundtrip store0 user1o [acct1, acct2] store1o
     (by decide) (by decide) (by decide) (by decide) (by decide)⟩

/-- C3: `update` with a linked-login set replaces, never merges.  After a
successful `update` carrying `accts` (pairwise-distinct ids, fresh in the
oauth index), the oauth index holds the old documents minus every one
back-referencing the user, plus exactly the new documents; and `get` on the
user's id returns exactly the new entries. -/
theorem C3_update_replaces_oauth_set (s : Store) (user : UserRecord)
    (accts : List OAuthAccount) (s2 : Store)
    (hoa : user.oauth_accounts = some accts)
    (hnodup : (accts.map (fun a => a.id)).Nodup)
    (hfresh : ∀ p ∈ s.oauth_account_index, ∀ a ∈ accts, p.1 ≠ a.id)
    (hup : update s user = (Except.ok user, s2)) :
    s2.oauth_account_index
      = s.oauth_account_index.filter (fun p => !(p.2.user_id == user.id))
          ++ accts.map (oauthDocOf user.id) ∧
    OpenSearchUserDatabase.get s2 user.id =
      some { id := user.id
             email := user.email
             hashed_password := user.hashed_password
             oauth_accounts := if accts.isEmpty then none else some accts } := by
  obtain ⟨⟨doc, hdoc⟩, hui, hoi⟩ := update_success s user s2 hup
  simp only [hoa] at hoi
  have hdocs : s2.oauth_account_index
      = s.oauth_account_index.filter (fun p => !(p.2.user_id == user.id))
          ++ accts.map (oauthDocOf user.id) := by
    rw [hoi]
    refine bulkIndex_fresh _ _ (fun p hp d hd => ?_) ?_
    · rcases List.mem_map.mp hd with ⟨a, ha, rfl⟩
      exact hfresh p (List.mem_filter.mp hp).1 a ha
    · rw [map_fst_oauthDocOf]
      exact hnodup
  refine ⟨hdocs, ?_⟩
  have hlookup : lookupDoc s2.user_index user.id
      = some { email := user.email, hashed_password := user.hashed_password } := by
    rw [hui]
    exact lookupDoc_indexDoc_self _ _ _
  have hhits : oauthHitsByUser s2 user.id = accts.map (oauthDocOf user.id) := by
    unfold oauthHitsByUser
    rw [hdocs, List.filter_append, List.filter_eq_nil_iff.mpr, List.nil_append,
      filter_oauthDocOf_self]
    intro p hp
    have hkeep := (List.mem_filter.mp hp).2
    simpa using hkeep
  unfold OpenSearchUserDatabase.get
  rw [hlookup]
  simp only [make_user, hhits]
  rw [isEmpty_map, map_oauthDocOf_roundtrip]

/-- `user1`'s record carrying a single new linked-login entry. -/
def acct3 : OAuthAccount :=
  { id := "o3", oauth_name := "facebook", account_id := "f1", access_token := "t3" }

/-- `user1` updated to carry only `acct3`. -/
def user1n : UserRecord :=
  { id := "u1", email := "A@B.com", hashed_password := "pw", oauth_accounts := some [acct3] }

/-- The store after `update store1o user1n`. -/
def store3 : Store :=
  { user_index := [("u1", { email := "A@B.com", hashed_password := "pw" })],
    oauth_account_index :=
      [("o3", { user_id := "u1", oauth_name := "facebook", account_id := "f1", access_token := "t3" })] }

/-- Witness for C3: replacing the two entries of `store1o` by `acct3`. -/
theorem C3_witness :
    user1n.oauth_accounts = some [acct3] ∧
    (([acct3] : List OAuthAccount).map (fun a => a.id)).Nodup ∧
    (∀ p ∈ store1o.oauth_account_index, ∀ a ∈ [acct3], p.1 ≠ a.id) ∧
    update store1o user1n = (Except.ok user1n, store3) ∧
    (store3.oauth_account_index
       = store1o.oauth_account_index.filter (fun p => !(p.2.user_id == user1n.id))
           ++ ([acct3] : List OAuthAccount).map (oauthDocOf user1n.id) ∧
     OpenSearchUserDatabase.get store3 user1n.id =
       some { id := user1n.id
              email := user1n.email
              hashed_password := user1n.hashed_password
              oauth_accounts := if ([acct3] : List OAuthAccount).isEmpty then none
                                else some [acct3] }) :=
  ⟨by decide, by decide, by decide, by decide,
   C3_update_replaces_oauth_set store1o user1n [acct3] store3
     (by decide) (by decide) (by decide) (by decide)⟩

/-- C10: updating with an `oauth_accounts` field that is present but an
empty list clears every linked-login document of the user and writes none,
so a subsequent `get` returns the field absent — the empty list is a way to
clear all linked accounts, not a no-op. -/
theorem C10_empty_list_clears (s : Store) (user : UserRecord) (s2 : Store)
    (hoa : user.oauth_accounts = some [])
    (hup : update s user = (Except.ok user, s2)) :
    s2.oauth_account_index
      = s.oauth_account_index.filter (fun p => !(p.2.user_id == user.id)) ∧
    (∀ p ∈ s2.oauth_account_index, p.2.user_id ≠ user.id) ∧
    (∃ r, OpenSearchUserDatabase.get s2 user.id = some r ∧ r.oauth_accounts = none) := by
  obtain ⟨⟨doc, hdoc⟩, hui, hoi⟩ := update_success s user s2 hup
  simp only [hoa] at hoi
  have hdocs : s2.oauth_account_index
      = s.oauth_account_index.filter (fun p => !(p.2.user_id == user.id)) := hoi
  have hmem : ∀ p ∈ s2.oauth_account_index, p.2.user_id ≠ user.id := by
    intro p hp
    rw [hdocs] at hp
    have hkeep := (List.mem_filter.mp hp).2
    simpa using hkeep
  have hhits : oauthHitsByUser s2 user.id = [] := by
    unfold oauthHitsByUser
    refine List.filter_eq_nil_iff.mpr (fun p hp => ?_)
    simpa using hmem p hp
  refine ⟨hdocs, hmem,
    ⟨make_user s2 user.id { email := user.email, hashed_password := user.hashed_password },
     ?_, ?_⟩⟩
  · unfold OpenSearchUserDatabase.get
    rw [hui, lookupDoc_indexDoc_self]
  · simp only [make_user, hhits, List.isEmpty_nil, if_pos]

/-- `user1` updated to carry an explicitly empty linked-login list. -/
def user1e : UserRecord :=
  { id := "u1", email := "A@B.com", hashed_password := "pw", oauth_accounts := some [] }

/-- The store after `update store1o user1e`: user document rewritten, all
linked-login documents gone. -/
def store4 : Store :=
  { user_index := [("u1", { email := "A@B.com", hashed_password := "pw" })],
    oauth_account_index := [] }

/-- Witness for C10: clearing `store1o`'s two entries with an empty list. -/
theorem C10_witness :
    user1e.oauth_accounts = some [] ∧
    update store1o user1e = (Except.ok user1e, store4) ∧
    (store4.oauth_account_index
       = store1o.oauth_account_index.filter (fun p => !(p.2.user_id == user1e.id)) ∧
     (∀ p ∈ store4.oauth_account_index, p.2.user_id ≠ user1e.id) ∧
     (∃ r, OpenSearchUserDatabase.get store4 user1e.id = some r ∧
           r.oauth_accounts = none)) :=
  ⟨by decide, by decide,
   C10_empty_list_clears store1o user1e store4 (by decide) (by decide)⟩

/-- Membership in an upserted index: a document is either the upserted one
or an untouched document with a different key. -/
theorem mem_indexDoc {α : Type} {idx : List (String × α)} {id : String} {v : α}
    {q : String × α} (hq : q ∈ indexDoc idx id v) :
    q = (id, v) ∨ (q ∈ idx ∧ q.1 ≠ id) := by
  unfold indexDoc at hq
  by_cases h : idx.any (fun p => p.1 == id)
  · rw [if_pos h] at hq
    rcases List.mem_map.mp hq with ⟨p, hp, hpq⟩
    by_cases hpid : p.1 == id
    · left
      rw [← hpq, if_pos hpid]
    · right
      rw [← hpq, if_neg hpid]
      exact ⟨hp, by simpa using hpid⟩
  · rw [if_neg h] at hq
    rcases List.mem_append.mp hq with hmem | hmem
    · right
      refine ⟨hmem, fun hc => ?_⟩
      exact h (List.any_eq_true.mpr ⟨q, hmem, by simp [hc]⟩)
    · left
      simpa using hmem

/-- C5: `get_by_email` is case-insensitive with respect to the email used at
creation.  After a successful `create` of `user` (with a fresh id), querying
any email that lowercases like `user.email` returns that user: `create`
stored the lowercased email and `get_by_email` lowercases its query. -/
theorem C5_get_by_email_case_insensitive (s : Store) (user : UserRecord)
    (s2 : Store) (e2 : String)
    (hid : ∀ p ∈ s.user_index, p.1 ≠ user.id)
    (hcr : create s user = (Except.ok user, s2))
    (he : strLower e2 = strLower user.email) :
    ∃ r, get_by_email s2 e2 = some r ∧ r.id = user.id ∧
      r.email = strLower user.email ∧
      get_by_email s2 e2 = OpenSearchUserDatabase.get s2 user.id := by
  obtain ⟨hchk, hui, hoi⟩ := create_success s user s2 hcr
  have hemptyhits : userHitsByEmail s (strLower user.email) = [] := by
    rcases hl : userHitsByEmail s (strLower user.email) with _ | ⟨h0, t⟩
    · rfl
    · exfalso
      unfold get_by_email at hchk
      rw [hl] at hchk
      simp at hchk
  have hfilter : ∀ p ∈ s.user_index, ¬(p.2.email == strLower user.email) = true := by
    have hnil := hemptyhits
    unfold userHitsByEmail at hnil
    rw [strLower_idem] at hnil
    exact List.filter_eq_nil_iff.mp hnil
  have hui2 : s2.user_index = s.user_index ++
      [(user.id, { email := strLower user.email, hashed_password := user.hashed_password })] := by
    rw [hui]
    exact indexDoc_fresh _ _ _ hid
  have hhits2 : userHitsByEmail s2 e2
      = [(user.id, { email := strLower user.email, hashed_password := user.hashed_password })] := by
    unfold userHitsByEmail
    rw [hui2, he, List.filter_append, List.filter_eq_nil_iff.mpr hfilter,
      List.nil_append]
    simp
  refine ⟨make_user s2 user.id
      { email := strLower user.email, hashed_password := user.hashed_password },
    ?_, rfl, rfl, ?_⟩
  · unfold get_by_email
    rw [hhits2]
  · unfold get_by_email OpenSearchUserDatabase.get
    rw [hhits2, hui2, lookupDoc_append _ _ _ hid]
    simp [lookupDoc]

/-- Witness for C5: `user1` is created with "A@B.com"; querying "a@B.CoM"
finds it. -/
theorem C5_witness :
    (∀ p ∈ store0.user_index, p.1 ≠ user1.id) ∧
    create store0 user1 = (Except.ok user1, store1) ∧
    strLower "a@B.CoM" = strLower user1.email ∧
    (∃ r, get_by_email store1 "a@B.CoM" = some r ∧ r.id = user1.id ∧
       r.email = strLower user1.email ∧
       get_by_email store1 "a@B.CoM" = OpenSearchUserDatabase.get store1 user1.id) :=
  ⟨by decide, by decide, by decide,
   C5_get_by_email_case_insensitive store0 user1 store1 "a@B.CoM"
     (by decide) (by decide) (by decide)⟩

/-- C9 (implicit): `update` writes the email verbatim, without lowercasing.
For a record whose email changes under lowercasing, after a successful
`update` the stored email is the mixed-case original, and `get_by_email`
with any casing of that email (its query being lowercased) no longer finds
the user — the case-insensitive-lookup property breaks for updated users. -/
theorem C9_update_breaks_email_lookup (s : Store) (user : UserRecord) (s2 : Store)
    (hup : update s user = (Except.ok user, s2))
    (hupper : user.email ≠ strLower user.email)
    (hothers : ∀ p ∈ s.user_index, p.1 ≠ user.id → p.2.email ≠ strLower user.email) :
    lookupDoc s2.user_index user.id
      = some { email := user.email, hashed_password := user.hashed_password } ∧
    ∀ e2, strLower e2 = strLower user.email → get_by_email s2 e2 = none := by
  obtain ⟨⟨doc, hdoc⟩, hui, hoi⟩ := update_success s user s2 hup
  constructor
  · rw [hui]
    exact lookupDoc_indexDoc_self _ _ _
  · intro e2 he
    have hhits : userHitsByEmail s2 e2 = [] := by
      unfold userHitsByEmail
      rw [he]
      refine List.filter_eq_nil_iff.mpr (fun q hq => ?_)
      rw [hui] at hq
      rcases mem_indexDoc hq with rfl | ⟨hmem, hne⟩
      · simpa using hupper
      · simpa using hothers q hmem hne
    unfold get_by_email
    rw [hhits]

/-- The store after `update store1 user1`: the stored email is the verbatim
mixed-case "A@B.com". -/
def store1m : Store :=
  { user_index := [("u1", { email := "A@B.com", hashed_password := "pw" })],
    oauth_account_index := [] }

/-- Witness for C9: `user1` (email "A@B.com") is updated over its stored
lowercase document; afterwards `get_by_email "a@b.com"` finds nothing. -/
theorem C9_witness :
    update store1 user1 = (Except.ok user1, store1m) ∧
    user1.email ≠ strLower user1.email ∧
    (∀ p ∈ store1.user_index, p.1 ≠ user1.id → p.2.email ≠ strLower user1.email) ∧
    lookupDoc store1m.user_index user1.id
      = some { email := user1.email, hashed_password := user1.hashed_password } ∧
    strLower "a@b.com" = strLower user1.email ∧
    get_by_email store1m "a@b.com" = none :=
  ⟨by decide, by decide, by decide,
   (C9_update_breaks_email_lookup store1 user1 store1m
      (by decide) (by decide) (by decide)).1,
   by decide,
   (C9_update_breaks_email_lookup store1 user1 store1m
      (by decide) (by decide) (by decide)).2 "a@b.com" (by decide)⟩

/-- C4: `delete` removes only the user document and leaves the linked-login
collection untouched (no cascade).  After a successful `delete`, `get` on
the user's id is empty, while the linked-login document of a previously
linked account survives and `get_by_oauth_account` still resolves the
now-dangling user id from it (and then delegates to the empty `get`). -/
theorem C4_delete_no_cascade (s : Store) (user : UserRecord) (s2 : Store)
    (oauth aid : String) (h0 : String × OAuthDoc)
    (hdel : delete s user = (Except.ok (), s2))
    (hhit : (oauthHitsByAccount s oauth aid).head? = some h0)
    (huid : h0.2.user_id = user.id) :
    s2.oauth_account_index = s.oauth_account_index ∧
    OpenSearchUserDatabase.get s2 user.id = none ∧
    (oauthHitsByAccount s2 oauth aid).head? = some h0 ∧
    get_by_oauth_account s2 oauth aid = OpenSearchUserDatabase.get s2 user.id := by
  have hs2 : s2 = { s with user_index := s.user_index.filter (fun p => !(p.1 == user.id)) } := by
    by_cases hex : s.user_index.any (fun p => p.1 == user.id)
    · have h2 := congrArg Prod.snd hdel
      simp only [delete, hex, if_true] at h2
      exact h2.symm
    · exfalso
      have h1 := congrArg Prod.fst hdel
      simp only [delete, hex, Bool.false_eq_true, if_false] at h1
      simp at h1
  subst hs2
  have hgone : OpenSearchUserDatabase.get
      { s with user_index := s.user_index.filter (fun p => !(p.1 == user.id)) }
      user.id = none := by
    unfold OpenSearchUserDatabase.get
    rw [lookupDoc_eq_none]
    intro p hp
    have hkeep := (List.mem_filter.mp hp).2
    simpa using hkeep
  have hsame : oauthHitsByAccount
      { s with user_index := s.user_index.filter (fun p => !(p.1 == user.id)) }
      oauth aid = oauthHitsByAccount s oauth aid := rfl
  refine ⟨rfl, hgone, by rw [hsame]; exact hhit, ?_⟩
  unfold get_by_oauth_account
  rcases hl : oauthHitsByAccount s oauth aid with _ | ⟨h1, t⟩
  · rw [hl] at hhit
    simp at hhit
  · rw [hsame, hl]
    rw [hl] at hhit
    simp only [List.head?_cons, Option.some.injEq] at hhit
    rw [hhit]
    show OpenSearchUserDatabase.get _ h0.2.user_id = _
    rw [huid]

/-- The store after deleting `user1o` from `store1o`: the user document is
gone, both linked-login documents survive. -/
def store5 : Store :=
  { user_index := [],
    oauth_account_index :=
      [("o1", { user_id := "u1", oauth_name := "google", account_id := "g1", access_token := "t1" }),
       ("o2", { user_id := "u1", oauth_name := "github", account_id := "h1", access_token := "t2" })] }

/-- Witness for C4: deleting `user1o` from `store1o` leaves its "google"
linked-login document queryable with the dangling id "u1". -/
theorem C4_witness :
    delete store1o user1o = (Except.ok (), store5) ∧
    (oauthHitsByAccount store1o "google" "g1").head?
      = some ("o1", { user_id := "u1", oauth_name := "google", account_id := "g1",
                      access_token := "t1" }) ∧
    (("o1", ({ user_id := "u1", oauth_name := "google", account_id := "g1",
               access_token := "t1" } : OAuthDoc)) : String × OAuthDoc).2.user_id = user1o.id ∧
    (store5.oauth_account_index = store1o.oauth_account_index ∧
     OpenSearchUserDatabase.get store5 user1o.id = none ∧
     (oauthHitsByAccount store5 "google" "g1").head?
       = some ("o1", { user_id := "u1", oauth_name := "google", account_id := "g1",
                       access_token := "t1" }) ∧
     get_by_oauth_account store5 "google" "g1"
       = OpenSearchUserDatabase.get store5 user1o.id) :=
  ⟨by decide, by decide, by decide,
   C4_delete_no_cascade store1o user1o store5 "google" "g1"
     ("o1", { user_id := "u1", oauth_name := "google", account_id := "g1",
              access_token := "t1" })
     (by decide) (by decide) (by decide)⟩
